import Mathlib

set_option maxHeartbeats 1000000
set_option autoImplicit false

/-!
Verification development for the Merlin++ closed-orbit solver
(Merlin++/ClosedOrbit.cpp) and the ILCDFS incremental tracking cache
(ExamplesTutorials/Examples/ILCDFS/src/Accelerator.cpp).

Doubles are modelled as rationals; the particle tracker and the TLAS
SVD solver are abstracted as function parameters where the claims
quantify over them.
-/

/-- A phase-space vector: the 6 coordinates of a PSvector. -/
abbrev PS := Fin 6 → ℚ

/-- The zero phase-space vector. -/
def psZero : PS := fun _ => 0

/-- Coordinate read p[n] (indices used by the code are always < 6;
out-of-range reads are totalised to 0). -/
def psGet (p : PS) (n : ℕ) : ℚ := if h : n < 6 then p ⟨n, h⟩ else 0

/-- Coordinate write p[n] = v. -/
def psSet (p : PS) (n : ℕ) (v : ℚ) : PS := fun i => if (i : ℕ) = n then v else p i

/-- const int cpt = transverseOnly ? 4 : 6 (ClosedOrbit.cpp line 96). -/
def cptOf (transverseOnly : Bool) : ℕ := if transverseOnly then 4 else 6

/-- The initial probe bunch: cpt + 1 copies of the guess pushed back
(ClosedOrbit.cpp lines 98-103). -/
def mkProbeBunch (cpt : ℕ) (particle : PS) : List PS := List.replicate (cpt + 1) particle

/-- Body of the probe-reset loop of FindClosedOrbit (lines 163-170):
each particle is set to the current guess, and for k > 0 coordinate k-1
is incremented by delta. -/
def resetParticle (particle : PS) (delta : ℚ) (k : ℕ) : PS :=
  if k = 0 then particle else psSet particle (k - 1) (psGet particle (k - 1) + delta)

/-- The probe-reset loop: iterator ip over the bunch with counter k. -/
def resetLoop (particle : PS) (delta : ℚ) : ℕ → List PS → List PS
  | _, [] => []
  | k, _ :: rest => resetParticle particle delta k :: resetLoop particle delta (k + 1) rest

/-- A RealMatrix, modelled as an entry function from (row, column). -/
abbrev Mat := ℕ → ℕ → ℚ

/-- A RealVector, modelled as an entry function. -/
abbrev Vec := ℕ → ℚ

/-- Pointwise matrix entry assignment dg(i, j) = v. -/
def setMat (A : Mat) (i j : ℕ) (v : ℚ) : Mat :=
  fun i0 j0 => if i0 = i ∧ j0 = j then v else A i0 j0

/-- Pointwise vector entry assignment g(i) = v. -/
def setVec (g : Vec) (i : ℕ) (v : ℚ) : Vec := fun i0 => if i0 = i then v else g i0

/-- RealMatrix dg(cpt) starts as the zero matrix. -/
def matZero : Mat := fun _ _ => 0

/-- RealVector g(cpt) starts as the zero vector. -/
def vecZero : Vec := fun _ => 0

/-- Inner loop over rows m (line 184-187): dg(m, k) = ((*ip)[m] - p_ref[m]) / delta. -/
def colLoop (p pref : PS) (delta : ℚ) (k cpt : ℕ) (dg : Mat) : Mat :=
  (List.range cpt).foldl (fun A m => setMat A m k ((psGet p m - psGet pref m) / delta)) dg

/-- Outer loop over columns k of the Jacobian build (lines 182-190): for
each k the iterator ip yields the tracked perturbed particle, column k of
dg is filled, dg(k, k) is reduced by 1, and g(k) = p_ref[k] - particle[k].
The first argument is the countdown of remaining columns. -/
def jacLoop (delta : ℚ) (cpt : ℕ) (pref guess : PS) :
    ℕ → ℕ → List PS → Mat → Vec → Mat × Vec
  | 0, _, _, dg, g => (dg, g)
  | n + 1, k, ps, dg, g =>
    let p := ps.headD psZero
    let dg1 := colLoop p pref delta k cpt dg
    let dg2 := setMat dg1 k k (dg1 k k - 1)
    let g1 := setVec g k (psGet pref k - psGet guess k)
    jacLoop delta cpt pref guess n (k + 1) ps.tail dg2 g1

/-- The dot product v*w of cpt-component RealVectors (line 199). -/
def dotVec (cpt : ℕ) (v w : Vec) : ℚ :=
  (List.range cpt).foldl (fun a i => a + v i * w i) 0

/-- The correction loop (lines 194-197): particle[row] -= g(row). -/
def subLoop (particle : PS) (c : Vec) (cpt : ℕ) : PS :=
  (List.range cpt).foldl (fun p row => psSet p row (psGet p row - c row)) particle

/-- One pass of the while loop of ClosedOrbit::FindClosedOrbit (lines
156-201), with the tracker and the TLAS SVD solve abstracted: resets the
probe bunch, tracks it, builds dg and g, solves for the correction, which
overwrites g, subtracts it from the guess, and computes w = g*g of the
overwritten g. Returns (new guess, tracked bunch, w). -/
def coStep (trackB : List PS → List PS) (solve : Mat → Vec → Vec) (cpt : ℕ)
    (delta : ℚ) (particle : PS) (bunch : List PS) : PS × List PS × ℚ :=
  let probe := resetLoop particle delta 0 bunch
  let tracked := trackB probe
  let pref := tracked.headD psZero
  let dgg := jacLoop delta cpt pref particle cpt 0 tracked.tail matZero vecZero
  let c := solve dgg.1 dgg.2
  let particle2 := subLoop particle c cpt
  (particle2, tracked, dotVec cpt c c)

/-- The while loop of FindClosedOrbit (condition w > tol and iter < max_iter),
written with fuel: since iter starts at 1 and increments every pass, the loop
makes at most max_iter - 1 passes, so fuel = max_iter never runs out. -/
def coLoop (trackB : List PS → List PS) (solve : Mat → Vec → Vec) (cpt : ℕ)
    (delta tol : ℚ) (max_iter : ℕ) :
    ℕ → PS → List PS → ℚ → ℕ → PS × List PS × ℚ × ℕ
  | 0, particle, bunch, w, iter => (particle, bunch, w, iter)
  | fuel + 1, particle, bunch, w, iter =>
    if tol < w ∧ iter < max_iter then
      let r := coStep trackB solve cpt delta particle bunch
      coLoop trackB solve cpt delta tol max_iter fuel r.1 r.2.1 r.2.2 (iter + 1)
    else (particle, bunch, w, iter)

/-- ClosedOrbit::FindClosedOrbit (lines 94-227) with the tracker and SVD
solve abstracted: builds the probe bunch of cpt + 1 copies of the guess,
runs the Newton loop from w = 1.0, iter = 1, and surfaces the outcome
(final guess, final bunch, final w, final iter — the quantities the call
leaves in the member fields w and iter and in the in-out particle). -/
def FindClosedOrbit (trackB : List PS → List PS) (solve : Mat → Vec → Vec)
    (transverseOnly : Bool) (delta tol : ℚ) (max_iter : ℕ) (particle : PS) :
    PS × List PS × ℚ × ℕ :=
  let cpt := cptOf transverseOnly
  coLoop trackB solve cpt delta tol max_iter max_iter particle (mkProbeBunch cpt particle) 1 1

/-- Tracker process bookkeeping: the list of attached process ids, the
list of live (allocated and not yet deleted) process ids, and the next
fresh id an allocation will use. -/
structure TrackerSt where
  attached : List ℕ
  live : List ℕ
  next : ℕ
deriving DecidableEq

/-- Modelled from the spec: ParticleTracker::AddProcess (the tracker class
is not under src/) attaches the given process to the tracker. -/
def AddProcess (s : TrackerSt) (i : ℕ) : TrackerSt :=
  { s with attached := s.attached ++ [i] }

/-- Modelled from the spec: ParticleTracker::RemoveProcess (the tracker
class is not under src/) detaches the given process from the tracker
without releasing it (section 6 lists it as the detach operation; the
ownership discipline of section 5 leaves the release to the solver call,
and the code itself deletes ringdt separately after removing it). -/
def RemoveProcess (s : TrackerSt) (i : ℕ) : TrackerSt :=
  { s with attached := s.attached.erase i }

/-- Allocation of a new process object (operator new): returns the fresh
id and marks it live. -/
def newProcess (s : TrackerSt) : ℕ × TrackerSt :=
  (s.next, { s with live := s.live ++ [s.next], next := s.next + 1 })

/-- Release (operator delete) of a process object. -/
def deleteProcess (s : TrackerSt) (i : ℕ) : TrackerSt :=
  { s with live := s.live.erase i }

/-- The transient-process management of ClosedOrbit::FindClosedOrbit
(lines 113-141 and 208-220): allocate and attach the synchrotron-radiation
process when radiation is enabled, then allocate and attach the ring-delta
process when bendscale is nonzero; after the tracking loop (which leaves
the process set unchanged), remove the radiation process if present, and
remove and delete the ring process if present. The code has no delete for
srproc. Returns the tracker state at the end of the call. -/
def coProcesses (radiation : Bool) (bendscale : ℚ) (s : TrackerSt) : TrackerSt :=
  let srs : Option ℕ × TrackerSt :=
    if radiation then
      let a := newProcess s
      (some a.1, AddProcess a.2 a.1)
    else (none, s)
  let rds : Option ℕ × TrackerSt :=
    if bendscale ≠ 0 then
      let a := newProcess srs.2
      (some a.1, AddProcess a.2 a.1)
    else (none, srs.2)
  let s3 := match srs.1 with
    | some i => RemoveProcess rds.2 i
    | none => rds.2
  match rds.1 with
  | some i => deleteProcess (RemoveProcess s3 i) i
  | none => s3

/-- One beamline element as seen by the stepper of FindRMSOrbit: its
length (GetLength) and its transfer map on the first particle. -/
abbrev RMSElem := ℚ × (PS → PS)

/-- The do-while stepper loop of ClosedOrbit::FindRMSOrbit (lines
238-254): prev holds the first particle before the current element and
pres the value after stepping through it; each element of length dl adds
dl * (pres[m] + prev[m]) * (pres[m] + prev[m]) / 4 to rms[m] and dl to
len. -/
def rmsLoop : List RMSElem → PS → (Fin 6 → ℚ) → ℚ → (Fin 6 → ℚ) × ℚ
  | [], _, rms, len => (rms, len)
  | e :: rest, prev, rms, len =>
    let pres := e.2 prev
    rmsLoop rest pres
      (fun m => rms m + e.1 * (pres m + prev m) * (pres m + prev m) / 4)
      (len + e.1)

/-- ClosedOrbit::FindRMSOrbit (lines 229-260): a single pass along the
full beamline, starting from the given phase vector with rms = 0 and
len = 0. The returned pair is (accumulated rms sums, total length); the
final write-back particle[m] = sqrt(rms[m] / len) is stated in the claim
theorem via Real.sqrt. -/
def FindRMSOrbit (line : List RMSElem) (particle : PS) : (Fin 6 → ℚ) × ℚ :=
  rmsLoop line particle (fun _ => 0) 0

/-- The first particle after tracking through the first i elements of the
beamline, used to state the closed form of the rms accumulation. -/
def trackUpTo (line : List RMSElem) (particle : PS) (i : ℕ) : PS :=
  (line.take i).foldl (fun p e => e.2 p) particle

/-- A DFS_Segment: the (first, second) pair of beamline element indices. -/
structure DFS_Segment where
  first : ℕ
  second : ℕ
deriving DecidableEq

/-- A CachedBunch cache entry: the element index the bunch has been
advanced to, and the bunch it owns, as a heap id — the C++ entry stores a
pointer that InitialiseTracking shares with the reference-particle list. -/
structure CachedBunch where
  location : ℕ
  bunch : ℕ
deriving DecidableEq

/-- Modelled from the spec: the CachedBunch(b) constructor (declared in
Accelerator.h, which is not under src/) — a fresh entry whose location is
reset to "not yet advanced", which the code identifies with index 0. -/
def mkCachedBunch (b : ℕ) : CachedBunch := ⟨0, b⟩

/-- The Accelerator state relevant to tracking: the per-state cache, the
heap of bunch objects (index = bunch id), the current active segment and
the incremental-tracking flag. Bunch values have an abstract type B. -/
structure AccState (B : Type) where
  cache : List CachedBunch
  heap : List B
  currentSegment : DFS_Segment
  allowIncrTracking : Bool

/-- Tracking through itsAccModel->GetBeamline(n1, n2): applies the
per-element maps for indexes n1 .. n2 inclusive (empty when n2 < n1). The
per-element map step is the abstract beam-dynamics parameter. -/
def trackRange {B : Type} (step : ℕ → B → B) (n1 n2 : ℕ) (b : B) : B :=
  (List.range' n1 (n2 + 1 - n1)).foldl (fun x i => step i x) b

/-- The while loop of Accelerator::InitialiseTracking (lines 201-206):
each pass creates a fresh bunch from beam0 (CreateBunch appends a new heap
cell), pushes its id onto the reference-particle list and wraps the same
id in a new cache entry. -/
def initLoop {B : Type} (b0 : B) :
    ℕ → List CachedBunch → List B → List ℕ → List CachedBunch × List B × List ℕ
  | 0, cache, heap, refs => (cache, heap, refs)
  | n + 1, cache, heap, refs =>
    initLoop b0 n (cache ++ [mkCachedBunch heap.length]) (heap ++ [b0]) (refs ++ [heap.length])

/-- Accelerator::InitialiseTracking (lines 194-207): clears the cache and
the reference-particle list, then creates nstates fresh bunches, sharing
each bunch object between its cache entry and the reference-particle
list. Returns the new state and the reference-particle list of bunch ids. -/
def InitialiseTracking {B : Type} (b0 : B) (nstates : ℕ) (s : AccState B) :
    AccState B × List ℕ :=
  let r := initLoop b0 nstates [] s.heap []
  ({ s with cache := r.1, heap := r.2.1 }, r.2.2)

/-- The incremental gap-fill phase of Accelerator::TrackBeam (lines
109-127): when incremental tracking is allowed, the segment does not start
at index 0, and the cached location is not immediately adjacent to the
segment start, the cached bunch is tracked in place through [n1, n2] with
n1 = location + 1 (or 0 when location = 0) and n2 = segment start - 1, and
the cached location becomes n2. Returns none when the state index has no
cache entry (the C++ indexes the cache vector unchecked in that case). -/
def gapFillPhase {B : Type} (step : ℕ → B → B) (dflt : B) (s : AccState B)
    (nstate : ℕ) : Option (AccState B) :=
  match s.cache.get? nstate with
  | none => none
  | some cb =>
    if s.allowIncrTracking ∧ s.currentSegment.first ≠ 0 ∧
        cb.location + 1 ≠ s.currentSegment.first then
      let n1 := if cb.location = 0 then 0 else cb.location + 1
      let n2 := s.currentSegment.first - 1
      let v := trackRange step n1 n2 (s.heap.getD cb.bunch dflt)
      some { s with heap := s.heap.set cb.bunch v,
                    cache := s.cache.set nstate { cb with location := n2 } }
    else some s

/-- The outcome of one Accelerator::TrackBeam call: the state after the
call, the value the (void) call returns to its caller, and the tracked
copy the call computed and then deleted. -/
structure TrackOutcome (B : Type) where
  state : AccState B
  returned : Option B
  computed : B

/-- Accelerator::TrackBeam (lines 103-141): looks up the cache entry for
the state (the C++ indexes the vector unchecked), performs the incremental
gap-fill phase, then tracks a copy of the cached bunch through the active
segment — from its start when incremental tracking is allowed, else from
index 0, through its end (lines 130-138). The copy rb is deleted at line
140 and the function returns void, so returned is none; the cache entry
and the heap are left exactly as the gap-fill phase set them. -/
def TrackBeam {B : Type} (step : ℕ → B → B) (dflt : B) (s : AccState B)
    (nstate : ℕ) : Option (TrackOutcome B) :=
  match gapFillPhase step dflt s nstate with
  | none => none
  | some s1 =>
    match s1.cache.get? nstate with
    | none => none
    | some cb =>
      let n1 := if s1.allowIncrTracking then s1.currentSegment.first else 0
      let n2 := s1.currentSegment.second
      let rb := trackRange step n1 n2 (s1.heap.getD cb.bunch dflt)
      some { state := s1, returned := none, computed := rb }

/-- Accelerator::SetActiveBeamlineSegment (lines 86-90). -/
def SetActiveBeamlineSegment {B : Type} (seg : DFS_Segment) (s : AccState B) : AccState B :=
  { s with currentSegment := seg }

/-- One segment change followed by a TrackBeam call on state index 0:
SetActiveBeamlineSegment then TrackBeam, recording the tracked copy the
call computed (and deleted). An uninitialised state index records none. -/
def applyCall {B : Type} (step : ℕ → B → B) (dflt : B) (s : AccState B)
    (seg : DFS_Segment) : AccState B × Option B :=
  let s1 := SetActiveBeamlineSegment seg s
  match TrackBeam step dflt s1 0 with
  | none => (s1, none)
  | some o => (o.state, some o.computed)

/-- A sequence of segment changes, each followed by a TrackBeam call on
state 0, together with the list of the computed tracked bunches. -/
def runCalls {B : Type} (step : ℕ → B → B) (dflt : B) :
    AccState B → List DFS_Segment → AccState B × List (Option B)
  | s, [] => (s, [])
  | s, seg :: rest =>
    let r := applyCall step dflt s seg
    let r2 := runCalls step dflt r.1 rest
    (r2.1, r.2 :: r2.2)

/-- The cached location after one call with segment seg, starting from
cached location loc (mirrors the gap-fill update of TrackBeam). -/
def nextLoc (loc : ℕ) (seg : DFS_Segment) : ℕ :=
  if seg.first ≠ 0 ∧ loc + 1 ≠ seg.first then seg.first - 1 else loc

/-- Cache-monotone call sequences: each segment has first ≤ second, and
at each call either the cache is un-advanced (location 0) and the segment
starts at 0 or at 2 or later, or the cache has advanced to location L ≥ 1
and the segment starts after L. On such sequences the gap-fill exactly
completes the missing prefix. -/
def CacheMonotone (loc : ℕ) : List DFS_Segment → Prop
  | [] => True
  | seg :: rest =>
    (seg.first ≤ seg.second ∧
      ((loc = 0 ∧ (seg.first = 0 ∨ 2 ≤ seg.first)) ∨ (1 ≤ loc ∧ loc + 1 ≤ seg.first))) ∧
    CacheMonotone (nextLoc loc seg) rest

instance cacheMonotoneDec : (loc : ℕ) → (l : List DFS_Segment) → Decidable (CacheMonotone loc l)
  | _, [] => isTrue trivial
  | loc, seg :: rest =>
    haveI := cacheMonotoneDec (nextLoc loc seg) rest
    inferInstanceAs (Decidable (_ ∧ _))

/-- The Jacobian matrix as the spec describes it: entry (m, k) is the
difference quotient of post-track coordinates of perturbed particle k+1
against the reference particle, with 1 subtracted on the diagonal; zero
outside the cpt-by-cpt range (where the RealMatrix has no entries). -/
def specJacobian (cpt : ℕ) (delta : ℚ) (tracked : List PS) : Mat := fun m k =>
  if m < cpt ∧ k < cpt then
    (psGet (tracked.getD (k + 1) psZero) m - psGet (tracked.getD 0 psZero) m) / delta
      - (if m = k then 1 else 0)
  else 0

/-- The residual vector as the spec describes it: component k is the
reference particle's post-track coordinate k minus the guess coordinate k. -/
def specResidual (cpt : ℕ) (tracked : List PS) (guess : PS) : Vec := fun k =>
  if k < cpt then psGet (tracked.getD 0 psZero) k - psGet guess k else 0

lemma headD_eq_getD {α : Type} (l : List α) (d : α) : l.headD d = l.getD 0 d := by
  cases l <;> rfl

lemma tail_getD {α : Type} (l : List α) (i : ℕ) (d : α) :
    l.tail.getD i d = l.getD (i + 1) d := by
  cases l <;> simp [List.getD]

lemma psGet_psSet (p : PS) (n : ℕ) (v : ℚ) (m : ℕ) :
    psGet (psSet p n v) m = if m = n ∧ m < 6 then v else psGet p m := by
  unfold psGet psSet
  by_cases h : m < 6
  · by_cases hmn : m = n
    · subst hmn; simp [h]
    · simp [h, hmn]
  · simp [h]

lemma setMat_eq (A : Mat) (i j : ℕ) (v : ℚ) : setMat A i j v i j = v :=
  if_pos ⟨rfl, rfl⟩

lemma setMat_ne (A : Mat) (i j : ℕ) (v : ℚ) (i0 j0 : ℕ) (h : ¬(i0 = i ∧ j0 = j)) :
    setMat A i j v i0 j0 = A i0 j0 := if_neg h

lemma setVec_ne (g : Vec) (i : ℕ) (v : ℚ) (i0 : ℕ) (h : i0 ≠ i) :
    setVec g i v i0 = g i0 := if_neg h

lemma resetLoop_length (particle : PS) (delta : ℚ) (l : List PS) :
    ∀ k, (resetLoop particle delta k l).length = l.length := by
  induction l with
  | nil => intro k; rfl
  | cons a rest ih => intro k; simp [resetLoop, ih]

lemma resetLoop_getD (particle : PS) (delta : ℚ) (l : List PS) :
    ∀ k j, j < l.length →
      (resetLoop particle delta k l).getD j psZero = resetParticle particle delta (k + j) := by
  induction l with
  | nil => intro k j h; simp at h
  | cons a rest ih =>
    intro k j h
    cases j with
    | zero => simp [resetLoop, List.getD]
    | succ j =>
      have hj : j < rest.length := by simp only [List.length_cons] at h; omega
      have harg : k + 1 + j = k + (j + 1) := by omega
      have := ih (k + 1) j hj
      simp only [resetLoop, List.getD_cons_succ]
      rw [this, harg]

lemma colLoop_get (p pref : PS) (delta : ℚ) (k : ℕ) (dg : Mat) (i j : ℕ) :
    ∀ cpt, colLoop p pref delta k cpt dg i j =
      if i < cpt ∧ j = k then (psGet p i - psGet pref i) / delta else dg i j := by
  intro cpt
  induction cpt with
  | zero => simp [colLoop]
  | succ n ih =>
    unfold colLoop at ih ⊢
    rw [List.range_succ, List.foldl_append, List.foldl_cons, List.foldl_nil]
    by_cases hik : i = n ∧ j = k
    · rw [hik.1, hik.2, setMat_eq]
      simp
    · rw [setMat_ne _ _ _ _ _ _ hik, ih]
      by_cases h1 : i < n ∧ j = k
      · rw [if_pos h1, if_pos ⟨by omega, h1.2⟩]
      · rw [if_neg h1, if_neg (by omega)]

lemma jacLoop_fst_lt (delta : ℚ) (cpt : ℕ) (pref guess : PS) (n : ℕ) :
    ∀ (k : ℕ) (ps : List PS) (dg : Mat) (g : Vec) (i j : ℕ), j < k →
      (jacLoop delta cpt pref guess n k ps dg g).1 i j = dg i j := by
  induction n with
  | zero => intro k ps dg g i j _; rfl
  | succ n ih =>
    intro k ps dg g i j h
    simp only [jacLoop]
    rw [ih (k + 1) _ _ _ i j (by omega)]
    rw [setMat_ne _ _ _ _ _ _ (by omega), colLoop_get, if_neg (by omega)]

lemma jacLoop_fst_ge (delta : ℚ) (cpt : ℕ) (pref guess : PS) (n : ℕ) :
    ∀ (k : ℕ) (ps : List PS) (dg : Mat) (g : Vec) (i j : ℕ), k + n ≤ j →
      (jacLoop delta cpt pref guess n k ps dg g).1 i j = dg i j := by
  induction n with
  | zero => intro k ps dg g i j _; rfl
  | succ n ih =>
    intro k ps dg g i j h
    simp only [jacLoop]
    rw [ih (k + 1) _ _ _ i j (by omega)]
    rw [setMat_ne _ _ _ _ _ _ (by omega), colLoop_get, if_neg (by omega)]

lemma jacLoop_snd_lt (delta : ℚ) (cpt : ℕ) (pref guess : PS) (n : ℕ) :
    ∀ (k : ℕ) (ps : List PS) (dg : Mat) (g : Vec) (j : ℕ), j < k →
      (jacLoop delta cpt pref guess n k ps dg g).2 j = g j := by
  induction n with
  | zero => intro k ps dg g j _; rfl
  | succ n ih =>
    intro k ps dg g j h
    simp only [jacLoop]
    rw [ih (k + 1) _ _ _ j (by omega)]
    rw [setVec_ne _ _ _ _ (by omega)]

lemma jacLoop_snd_ge (delta : ℚ) (cpt : ℕ) (pref guess : PS) (n : ℕ) :
    ∀ (k : ℕ) (ps : List PS) (dg : Mat) (g : Vec) (j : ℕ), k + n ≤ j →
      (jacLoop delta cpt pref guess n k ps dg g).2 j = g j := by
  induction n with
  | zero => intro k ps dg g j _; rfl
  | succ n ih =>
    intro k ps dg g j h
    simp only [jacLoop]
    rw [ih (k + 1) _ _ _ j (by omega)]
    rw [setVec_ne _ _ _ _ (by omega)]

lemma jacLoop_fst_in (delta : ℚ) (cpt : ℕ) (pref guess : PS) (n : ℕ) :
    ∀ (k : ℕ) (ps : List PS) (dg : Mat) (g : Vec) (i j : ℕ),
      i < cpt → k ≤ j → j < k + n →
      (jacLoop delta cpt pref guess n k ps dg g).1 i j =
        (psGet (ps.getD (j - k) psZero) i - psGet pref i) / delta
          - (if i = j then 1 else 0) := by
  induction n with
  | zero => intro k ps dg g i j _ h1 h2; omega
  | succ n ih =>
    intro k ps dg g i j hi h1 h2
    simp only [jacLoop]
    by_cases hjk : j = k
    · subst hjk
      rw [jacLoop_fst_lt _ _ _ _ _ (j + 1) _ _ _ i j (by omega)]
      rw [Nat.sub_self, ← headD_eq_getD]
      by_cases hij : i = j
      · subst hij
        rw [setMat_eq, colLoop_get, if_pos ⟨hi, rfl⟩]
        simp
      · rw [setMat_ne _ _ _ _ _ _ (by omega), colLoop_get, if_pos ⟨hi, rfl⟩]
        simp [hij]
    · rw [ih (k + 1) _ _ _ i j hi (by omega) (by omega)]
      have hshift : j - k = (j - (k + 1)) + 1 := by omega
      rw [tail_getD, ← hshift]

lemma jacLoop_snd_in (delta : ℚ) (cpt : ℕ) (pref guess : PS) (n : ℕ) :
    ∀ (k : ℕ) (ps : List PS) (dg : Mat) (g : Vec) (j : ℕ), k ≤ j → j < k + n →
      (jacLoop delta cpt pref guess n k ps dg g).2 j =
        psGet pref j - psGet guess j := by
  induction n with
  | zero => intro k ps dg g j h1 h2; omega
  | succ n ih =>
    intro k ps dg g j h1 h2
    simp only [jacLoop]
    by_cases hjk : j = k
    · subst hjk
      rw [jacLoop_snd_lt _ _ _ _ _ (j + 1) _ _ _ j (by omega)]
      simp [setVec]
    · rw [ih (k + 1) _ _ _ j (by omega) (by omega)]

lemma jacLoop_fst_high (delta : ℚ) (cpt : ℕ) (pref guess : PS) (n : ℕ) :
    ∀ (k : ℕ) (ps : List PS) (dg : Mat) (g : Vec) (i j : ℕ), cpt ≤ i → i ≠ j →
      (jacLoop delta cpt pref guess n k ps dg g).1 i j = dg i j := by
  induction n with
  | zero => intro k ps dg g i j _ _; rfl
  | succ n ih =>
    intro k ps dg g i j hi hij
    simp only [jacLoop]
    rw [ih (k + 1) _ _ _ i j hi hij]
    rw [setMat_ne _ _ _ _ _ _ (by omega), colLoop_get, if_neg (by omega)]

lemma jacLoop_fst_closed (delta : ℚ) (cpt : ℕ) (pref guess : PS) (tracked : List PS)
    (h0 : pref = tracked.getD 0 psZero) :
    (jacLoop delta cpt pref guess cpt 0 tracked.tail matZero vecZero).1 =
      specJacobian cpt delta tracked := by
  funext i j
  by_cases hj : j < cpt
  · by_cases hi : i < cpt
    · rw [jacLoop_fst_in _ _ _ _ _ 0 _ _ _ i j hi (by omega) (by omega)]
      rw [specJacobian, if_pos (show i < cpt ∧ j < cpt from ⟨hi, hj⟩),
        Nat.sub_zero, tail_getD, h0]
    · rw [jacLoop_fst_high _ _ _ _ _ 0 _ _ _ i j (by omega) (by omega)]
      rw [specJacobian, if_neg (by omega)]
      rfl
  · rw [jacLoop_fst_ge _ _ _ _ _ 0 _ _ _ i j (by omega)]
    rw [specJacobian, if_neg (by omega)]
    rfl

lemma jacLoop_snd_closed (delta : ℚ) (cpt : ℕ) (pref guess : PS) (tracked : List PS)
    (h0 : pref = tracked.getD 0 psZero) :
    (jacLoop delta cpt pref guess cpt 0 tracked.tail matZero vecZero).2 =
      specResidual cpt tracked guess := by
  funext j
  by_cases hj : j < cpt
  · rw [jacLoop_snd_in _ _ _ _ _ 0 _ _ _ j (by omega) (by omega)]
    rw [specResidual, if_pos hj, h0]
  · rw [jacLoop_snd_ge _ _ _ _ _ 0 _ _ _ j (by omega)]
    rw [specResidual, if_neg hj]
    rfl

lemma subLoop_get (particle : PS) (c : Vec) :
    ∀ cpt, cpt ≤ 6 → ∀ i, psGet (subLoop particle c cpt) i =
      if i < cpt then psGet particle i - c i else psGet particle i := by
  intro cpt
  induction cpt with
  | zero => intro _ i; simp [subLoop]
  | succ n ih =>
    intro h6 i
    unfold subLoop at ih ⊢
    rw [List.range_succ, List.foldl_append, List.foldl_cons, List.foldl_nil]
    rw [psGet_psSet]
    by_cases hin : i = n
    · subst hin
      rw [if_pos ⟨rfl, by omega⟩, ih (by omega) i, if_neg (by omega), if_pos (by omega)]
    · rw [if_neg (by simp [hin]), ih (by omega) i]
      by_cases h1 : i < n
      · rw [if_pos h1, if_pos (by omega)]
      · rw [if_neg h1, if_neg (by omega)]

lemma coStep_bunch (trackB : List PS → List PS) (solve : Mat → Vec → Vec) (cpt : ℕ)
    (delta : ℚ) (particle : PS) (b : List PS) :
    (coStep trackB solve cpt delta particle b).2.1 = trackB (resetLoop particle delta 0 b) :=
  rfl

lemma coLoop_bunch_length (trackB : List PS → List PS) (solve : Mat → Vec → Vec)
    (cpt : ℕ) (delta tol : ℚ) (mi : ℕ)
    (hTrack : ∀ l : List PS, (trackB l).length = l.length) :
    ∀ (fuel : ℕ) (particle : PS) (b : List PS) (w : ℚ) (iter : ℕ),
      (coLoop trackB solve cpt delta tol mi fuel particle b w iter).2.1.length = b.length := by
  intro fuel
  induction fuel with
  | zero => intro particle b w iter; rfl
  | succ fuel ih =>
    intro particle b w iter
    simp only [coLoop]
    by_cases h : tol < w ∧ iter < mi
    · rw [if_pos h, ih]
      rw [coStep_bunch, hTrack, resetLoop_length]
    · rw [if_neg h]

/-- C1: in every iteration of FindClosedOrbit the probe bunch holds exactly
cpt + 1 particles (cpt = 4 if transverse-only, else 6), each reset to the
current guess, particle 0 unperturbed and particle j (j = 1..cpt) perturbed
by +delta on coordinate j - 1; after one-turn tracking, Jacobian entry
(m, k) is (post-track coordinate m of perturbed particle k + 1 minus
post-track coordinate m of the reference particle) / delta with 1
subtracted on the diagonal, and residual component k is the reference
particle's post-track coordinate k minus the guess coordinate k. Stated
for any bunch of the invariant length cpt + 1 (the initial bunch has it,
and the loop preserves it whenever the tracker preserves particle count). -/
theorem claim_C1 (t : Bool) (trackB : List PS → List PS) (particle : PS) (delta : ℚ)
    (b : List PS) (hb : b.length = cptOf t + 1)
    (hTrack : ∀ l : List PS, (trackB l).length = l.length) :
    (resetLoop particle delta 0 b).length = cptOf t + 1 ∧
    (resetLoop particle delta 0 b).getD 0 psZero = particle ∧
    (∀ j, 1 ≤ j → j ≤ cptOf t →
      (resetLoop particle delta 0 b).getD j psZero =
        psSet particle (j - 1) (psGet particle (j - 1) + delta)) ∧
    (jacLoop delta (cptOf t) ((trackB (resetLoop particle delta 0 b)).headD psZero)
        particle (cptOf t) 0 (trackB (resetLoop particle delta 0 b)).tail
        matZero vecZero).1 =
      specJacobian (cptOf t) delta (trackB (resetLoop particle delta 0 b)) ∧
    (jacLoop delta (cptOf t) ((trackB (resetLoop particle delta 0 b)).headD psZero)
        particle (cptOf t) 0 (trackB (resetLoop particle delta 0 b)).tail
        matZero vecZero).2 =
      specResidual (cptOf t) (trackB (resetLoop particle delta 0 b)) particle ∧
    (∀ (solve : Mat → Vec → Vec) (tol : ℚ) (mi fuel : ℕ) (w : ℚ) (iter : ℕ),
      (coLoop trackB solve (cptOf t) delta tol mi fuel particle b w iter).2.1.length =
        cptOf t + 1) ∧
    (mkProbeBunch (cptOf t) particle).length = cptOf t + 1 := by
  refine ⟨?_, ?_, ?_, ?_, ?_, ?_, ?_⟩
  · rw [resetLoop_length, hb]
  · rw [resetLoop_getD particle delta b 0 0 (by omega)]
    rfl
  · intro j h1 h2
    rw [resetLoop_getD particle delta b 0 j (by omega)]
    unfold resetParticle
    rw [if_neg (by omega)]
    simp
  · exact jacLoop_fst_closed _ _ _ _ _ (headD_eq_getD _ _)
  · exact jacLoop_snd_closed _ _ _ _ _ (headD_eq_getD _ _)
  · intro solve tol mi fuel w iter
    rw [coLoop_bunch_length trackB solve (cptOf t) delta tol mi hTrack fuel particle b w iter, hb]
  · simp [mkProbeBunch]

lemma coLoop_post (trackB : List PS → List PS) (solve : Mat → Vec → Vec) (cpt : ℕ)
    (delta tol : ℚ) (mi : ℕ) :
    ∀ (fuel : ℕ) (particle : PS) (b : List PS) (w : ℚ) (iter : ℕ), mi < fuel + iter →
      (coLoop trackB solve cpt delta tol mi fuel particle b w iter).2.2.1 ≤ tol ∨
        (tol < (coLoop trackB solve cpt delta tol mi fuel particle b w iter).2.2.1 ∧
          mi ≤ (coLoop trackB solve cpt delta tol mi fuel particle b w iter).2.2.2) := by
  intro fuel
  induction fuel with
  | zero =>
    intro particle b w iter h
    by_cases hw : w ≤ tol
    · exact Or.inl hw
    · exact Or.inr ⟨by simpa using hw, show mi ≤ iter by omega⟩
  | succ fuel ih =>
    intro particle b w iter h
    simp only [coLoop]
    by_cases hc : tol < w ∧ iter < mi
    · rw [if_pos hc]
      exact ih _ _ _ _ (by omega)
    · rw [if_neg hc]
      by_cases hw : w ≤ tol
      · exact Or.inl hw
      · have h1 : tol < w := by simpa using hw
        have h2 : ¬iter < mi := fun hlt => hc ⟨h1, hlt⟩
        exact Or.inr ⟨h1, show mi ≤ iter by omega⟩

/-- C7 (amended): FindClosedOrbit surfaces its outcome to the caller as a
distinct, inspectable result — the converged vector together with the
iteration count and the final loop metric w (the squared norm of the last
SVD-solved correction, the quantity compared against tol; the residual
itself is not surfaced) — and on every exit path either w is within
tolerance (converged) or w exceeds tolerance and iter has reached
max_iter, so for every call exhausting the iteration budget without
meeting tolerance the caller can distinguish that non-convergence from a
converged result and read off the final metric and the iteration count. -/
theorem claim_C7_amended (trackB : List PS → List PS) (solve : Mat → Vec → Vec)
    (transverseOnly : Bool) (delta tol : ℚ) (max_iter : ℕ) (particle : PS) :
    (FindClosedOrbit trackB solve transverseOnly delta tol max_iter particle).2.2.1 ≤ tol ∨
      (tol < (FindClosedOrbit trackB solve transverseOnly delta tol max_iter particle).2.2.1 ∧
        max_iter ≤
          (FindClosedOrbit trackB solve transverseOnly delta tol max_iter particle).2.2.2) := by
  exact coLoop_post trackB solve (cptOf transverseOnly) delta tol max_iter max_iter particle
    (mkProbeBunch (cptOf transverseOnly) particle) 1 1 (by omega)

/-- Modelled from the spec: the SVD-based pseudo-inverse solve (TLAS
SVDMatrix from TLASimp.h, which is not under src/). For the diagonal
systems arising in the concrete inputs below it divides each component by
the diagonal entry, sending negligible (zero) singular directions to zero
— which is the SVD pseudo-inverse of a diagonal matrix. -/
def svdSolveDiag (A : Mat) (g : Vec) : Vec := fun k => if A k k = 0 then 0 else g k / A k k

/-- A concrete linear one-turn map used as counterexample tracker: every
coordinate of every particle is halved. -/
def halfPS (v : PS) : PS := fun i => v i / 2

/-- Counterexample to C2 as stated: transverse-only solve (cpt = 4) with
the halving one-turn map, guess (1,0,0,0,0,0) and delta = 1. The loop
metric w of the first iteration is 1 (the squared norm of the correction),
while the dot product of the residual vector with itself is 1/4 — so w is
not the squared residual norm. -/
theorem claim_C2_counterexample :
    (coStep (List.map halfPS) svdSolveDiag (cptOf true) 1 (psSet psZero 0 1)
        (mkProbeBunch (cptOf true) (psSet psZero 0 1))).2.2 ≠
      dotVec (cptOf true)
        (specResidual (cptOf true)
          (List.map halfPS
            (resetLoop (psSet psZero 0 1) 1 0 (mkProbeBunch (cptOf true) (psSet psZero 0 1))))
          (psSet psZero 0 1))
        (specResidual (cptOf true)
          (List.map halfPS
            (resetLoop (psSet psZero 0 1) 1 0 (mkProbeBunch (cptOf true) (psSet psZero 0 1))))
          (psSet psZero 0 1)) ∧
    (coStep (List.map halfPS) svdSolveDiag (cptOf true) 1 (psSet psZero 0 1)
        (mkProbeBunch (cptOf true) (psSet psZero 0 1))).2.2 = 1 ∧
    dotVec (cptOf true)
        (specResidual (cptOf true)
          (List.map halfPS
            (resetLoop (psSet psZero 0 1) 1 0 (mkProbeBunch (cptOf true) (psSet psZero 0 1))))
          (psSet psZero 0 1))
        (specResidual (cptOf true)
          (List.map halfPS
            (resetLoop (psSet psZero 0 1) 1 0 (mkProbeBunch (cptOf true) (psSet psZero 0 1))))
          (psSet psZero 0 1)) = 1 / 4 := by
  have hw : (coStep (List.map halfPS) svdSolveDiag (cptOf true) 1 (psSet psZero 0 1)
      (mkProbeBunch (cptOf true) (psSet psZero 0 1))).2.2 = 1 := by
    simp only [coStep]
    rw [jacLoop_fst_closed 1 (cptOf true)
        ((List.map halfPS (resetLoop (psSet psZero 0 1) 1 0
          (mkProbeBunch (cptOf true) (psSet psZero 0 1)))).headD psZero)
        (psSet psZero 0 1)
        (List.map halfPS (resetLoop (psSet psZero 0 1) 1 0
          (mkProbeBunch (cptOf true) (psSet psZero 0 1))))
        (headD_eq_getD _ _),
      jacLoop_snd_closed 1 (cptOf true)
        ((List.map halfPS (resetLoop (psSet psZero 0 1) 1 0
          (mkProbeBunch (cptOf true) (psSet psZero 0 1)))).headD psZero)
        (psSet psZero 0 1)
        (List.map halfPS (resetLoop (psSet psZero 0 1) 1 0
          (mkProbeBunch (cptOf true) (psSet psZero 0 1))))
        (headD_eq_getD _ _)]
    norm_num [cptOf, dotVec, List.range_succ, svdSolveDiag, specJacobian, specResidual,
      resetLoop, resetParticle, mkProbeBunch, List.replicate, halfPS, psGet, psSet, psZero,
      List.getD]
  have hr : dotVec (cptOf true)
      (specResidual (cptOf true)
        (List.map halfPS
          (resetLoop (psSet psZero 0 1) 1 0 (mkProbeBunch (cptOf true) (psSet psZero 0 1))))
        (psSet psZero 0 1))
      (specResidual (cptOf true)
        (List.map halfPS
          (resetLoop (psSet psZero 0 1) 1 0 (mkProbeBunch (cptOf true) (psSet psZero 0 1))))
        (psSet psZero 0 1)) = 1 / 4 := by
    norm_num [cptOf, dotVec, List.range_succ, specResidual, resetLoop, resetParticle,
      mkProbeBunch, List.replicate, halfPS, psGet, psSet, psZero, List.getD]
  exact ⟨by rw [hw, hr]; norm_num, hw, hr⟩

/-- C2 (amended): in each iteration the correction is the solver applied
to the built Jacobian and residual, it is subtracted componentwise from
the guess on the solved coordinates (the rest unchanged), and the loop
metric w equals the dot product of the correction with itself — the
squared norm of the correction, not of the residual. -/
theorem claim_C2_amended (t : Bool) (trackB : List PS → List PS)
    (solve : Mat → Vec → Vec) (particle : PS) (delta : ℚ) (b : List PS) :
    (coStep trackB solve (cptOf t) delta particle b).2.2 =
      dotVec (cptOf t)
        (solve (specJacobian (cptOf t) delta (trackB (resetLoop particle delta 0 b)))
          (specResidual (cptOf t) (trackB (resetLoop particle delta 0 b)) particle))
        (solve (specJacobian (cptOf t) delta (trackB (resetLoop particle delta 0 b)))
          (specResidual (cptOf t) (trackB (resetLoop particle delta 0 b)) particle)) ∧
    (∀ row, row < cptOf t →
      psGet (coStep trackB solve (cptOf t) delta particle b).1 row =
        psGet particle row -
          (solve (specJacobian (cptOf t) delta (trackB (resetLoop particle delta 0 b)))
            (specResidual (cptOf t) (trackB (resetLoop particle delta 0 b)) particle)) row) ∧
    (∀ row, cptOf t ≤ row →
      psGet (coStep trackB solve (cptOf t) delta particle b).1 row =
        psGet particle row) := by
  have hcpt : cptOf t ≤ 6 := by cases t <;> simp [cptOf]
  have h1 := jacLoop_fst_closed delta (cptOf t)
    ((trackB (resetLoop particle delta 0 b)).headD psZero) particle
    (trackB (resetLoop particle delta 0 b)) (headD_eq_getD _ _)
  have h2 := jacLoop_snd_closed delta (cptOf t)
    ((trackB (resetLoop particle delta 0 b)).headD psZero) particle
    (trackB (resetLoop particle delta 0 b)) (headD_eq_getD _ _)
  simp only [coStep]
  rw [h1, h2]
  refine ⟨rfl, ?_, ?_⟩
  · intro row h
    rw [subLoop_get _ _ _ hcpt row, if_pos h]
  · intro row h
    rw [subLoop_get _ _ _ hcpt row, if_neg (by omega)]

/-- Witness for the amended C2 at a concrete input. -/
theorem claim_C2_amended_witness :
    (coStep id svdSolveDiag (cptOf false) 1 psZero (mkProbeBunch 6 psZero)).2.2 =
      dotVec (cptOf false)
        (svdSolveDiag (specJacobian (cptOf false) 1 (id (resetLoop psZero 1 0 (mkProbeBunch 6 psZero))))
          (specResidual (cptOf false) (id (resetLoop psZero 1 0 (mkProbeBunch 6 psZero))) psZero))
        (svdSolveDiag (specJacobian (cptOf false) 1 (id (resetLoop psZero 1 0 (mkProbeBunch 6 psZero))))
          (specResidual (cptOf false) (id (resetLoop psZero 1 0 (mkProbeBunch 6 psZero))) psZero)) ∧
    psGet (coStep id svdSolveDiag (cptOf false) 1 psZero (mkProbeBunch 6 psZero)).1 0 =
      psGet psZero 0 -
        (svdSolveDiag (specJacobian (cptOf false) 1 (id (resetLoop psZero 1 0 (mkProbeBunch 6 psZero))))
          (specResidual (cptOf false) (id (resetLoop psZero 1 0 (mkProbeBunch 6 psZero))) psZero)) 0 := by
  have h := claim_C2_amended false id svdSolveDiag psZero 1 (mkProbeBunch 6 psZero)
  exact ⟨h.1, h.2.1 0 (by decide)⟩

/-- A concrete integer beamline used for counterexamples and witnesses:
element i adds i + 1 to the (one-component) bunch value. -/
def stepEx (i : ℕ) (x : ℤ) : ℤ := x + (i + 1)

lemma initLoop_spec {B : Type} (b0 : B) :
    ∀ (n : ℕ) (cache : List CachedBunch) (heap : List B) (refs : List ℕ),
      initLoop b0 n cache heap refs =
        (cache ++ (List.range' heap.length n).map mkCachedBunch,
          heap ++ List.replicate n b0,
          refs ++ List.range' heap.length n) := by
  intro n
  induction n with
  | zero => intro cache heap refs; simp [initLoop]
  | succ n ih =>
    intro cache heap refs
    simp only [initLoop]
    rw [ih]
    rw [List.range'_succ heap.length n 1]
    simp [List.replicate_succ]

/-- C10: after InitialiseTracking(nstates, refplist) the cache and the
reference-particle list both hold exactly nstates entries, the i-th
reference entry is the very same bunch object (heap id) as the i-th cache
entry's bunch — no snapshot copy is made — and every such id is a valid
heap cell, so an in-place gap-fill write through the cache entry's bunch
id is read back through the reference-particle entry. -/
theorem claim_C10 {B : Type} (b0 : B) (nstates : ℕ) (s : AccState B) :
    (InitialiseTracking b0 nstates s).1.cache.length = nstates ∧
    (InitialiseTracking b0 nstates s).2.length = nstates ∧
    (∀ i, i < nstates →
      (InitialiseTracking b0 nstates s).2.get? i =
        ((InitialiseTracking b0 nstates s).1.cache.get? i).map CachedBunch.bunch) ∧
    (∀ i, i < nstates →
      ((InitialiseTracking b0 nstates s).1.cache.getD i (mkCachedBunch 0)).bunch =
        (InitialiseTracking b0 nstates s).2.getD i 0 ∧
      ((InitialiseTracking b0 nstates s).1.cache.getD i (mkCachedBunch 0)).bunch <
        (InitialiseTracking b0 nstates s).1.heap.length) ∧
    (∀ i, i < nstates → ∀ v : B,
      (((InitialiseTracking b0 nstates s).1.heap.set
          ((InitialiseTracking b0 nstates s).1.cache.getD i (mkCachedBunch 0)).bunch v).getD
        ((InitialiseTracking b0 nstates s).2.getD i 0) b0) = v) := by
  have hrw := initLoop_spec b0 nstates [] s.heap []
  have hc : (InitialiseTracking b0 nstates s).1.cache =
      (List.range' s.heap.length nstates).map mkCachedBunch := by
    simp only [InitialiseTracking, hrw]
    simp
  have hr : (InitialiseTracking b0 nstates s).2 = List.range' s.heap.length nstates := by
    simp only [InitialiseTracking, hrw]
    simp
  have hh : (InitialiseTracking b0 nstates s).1.heap = s.heap ++ List.replicate nstates b0 := by
    simp only [InitialiseTracking, hrw]
  have hget : ∀ i, i < nstates →
      (InitialiseTracking b0 nstates s).1.cache.get? i =
        some (mkCachedBunch (s.heap.length + i)) := by
    intro i hi
    rw [hc, List.get?_eq_getElem?, List.getElem?_map, ← List.get?_eq_getElem?,
      List.get?_range' _ _ hi]
    simp
  have hrget : ∀ i, i < nstates →
      (InitialiseTracking b0 nstates s).2.get? i = some (s.heap.length + i) := by
    intro i hi
    rw [hr, List.get?_range' _ _ hi]
    simp
  have hbunch : ∀ i, i < nstates →
      ((InitialiseTracking b0 nstates s).1.cache.getD i (mkCachedBunch 0)).bunch =
        s.heap.length + i := by
    intro i hi
    rw [List.getD, hget i hi]
    rfl
  refine ⟨?_, ?_, ?_, ?_, ?_⟩
  · rw [hc]; simp
  · rw [hr]; simp
  · intro i hi
    rw [hget i hi, hrget i hi]
    rfl
  · intro i hi
    refine ⟨?_, ?_⟩
    · rw [hbunch i hi, List.getD, hrget i hi]
      rfl
    · rw [hbunch i hi, hh]
      simp only [List.length_append, List.length_replicate]
      omega
  · intro i hi v
    have hlen2 : s.heap.length + i < (InitialiseTracking b0 nstates s).1.heap.length := by
      rw [hh]; simp only [List.length_append, List.length_replicate]; omega
    have hrgetD : (InitialiseTracking b0 nstates s).2.getD i 0 = s.heap.length + i := by
      rw [List.getD, hrget i hi]; rfl
    rw [hbunch i hi, hrgetD, List.getD, List.get?_eq_getElem?]
    simp [List.getElem?_set_self', hlen2]

/-- Witness for C10 at a concrete input. -/
theorem claim_C10_witness :
    (InitialiseTracking (0 : ℤ) 2 ⟨[], [], ⟨0, 0⟩, true⟩).1.cache.length = 2 ∧
    (InitialiseTracking (0 : ℤ) 2 ⟨[], [], ⟨0, 0⟩, true⟩).2.get? 1 =
      ((InitialiseTracking (0 : ℤ) 2 ⟨[], [], ⟨0, 0⟩, true⟩).1.cache.get? 1).map
        CachedBunch.bunch ∧
    (((InitialiseTracking (0 : ℤ) 2 ⟨[], [], ⟨0, 0⟩, true⟩).1.heap.set
        ((InitialiseTracking (0 : ℤ) 2 ⟨[], [], ⟨0, 0⟩, true⟩).1.cache.getD 1
          (mkCachedBunch 0)).bunch 7).getD
      ((InitialiseTracking (0 : ℤ) 2 ⟨[], [], ⟨0, 0⟩, true⟩).2.getD 1 0) 0) = 7 := by
  have h := claim_C10 (0 : ℤ) 2 ⟨[], [], ⟨0, 0⟩, true⟩
  exact ⟨h.1, h.2.2.1 1 (by decide), h.2.2.2.2 1 (by decide) 7⟩

/-- C8: the claim is right about the required precondition but the code
performs no check. After initialising 2 states, state index 5 has no cache
entry at all, and Accelerator::TrackBeam indexes cachedBunches[5] with
std::vector::operator[] unchecked — undefined behaviour rather than a
fatal rejection. In the embedding the lookup is none and the call has no
defined result. -/
theorem claim_C8_bug :
    (InitialiseTracking (0 : ℤ) 2 ⟨[], [], ⟨0, 0⟩, true⟩).1.cache.get? 5 = none ∧
    TrackBeam stepEx (0 : ℤ) (InitialiseTracking (0 : ℤ) 2 ⟨[], [], ⟨0, 0⟩, true⟩).1 5 =
      none := by
  constructor <;> rfl

/-- C3: the gap-fill policy of TrackBeam. With incremental tracking on:
a segment starting at index 0 never gap-fills; a cached location already
adjacent (location + 1 = segment start) never gap-fills; otherwise the
cached bunch is tracked in place through exactly [n1, n2], n1 = location+1
(or 0 when location = 0), n2 = segment start - 1, and the cached location
becomes n2. Consequently, after tracking segment (5,10) and then
requesting (11,20), the cached entry holds location exactly 10 after the
second call's gap-fill phase, before the active segment is tracked. -/
theorem claim_C3 {B : Type} (step : ℕ → B → B) (dflt : B) (s : AccState B)
    (nstate : ℕ) (cb : CachedBunch) (hcb : s.cache.get? nstate = some cb)
    (hincr : s.allowIncrTracking = true) :
    (s.currentSegment.first = 0 → gapFillPhase step dflt s nstate = some s) ∧
    (cb.location + 1 = s.currentSegment.first → gapFillPhase step dflt s nstate = some s) ∧
    (s.currentSegment.first ≠ 0 → cb.location + 1 ≠ s.currentSegment.first →
      gapFillPhase step dflt s nstate = some
        { s with
            heap := s.heap.set cb.bunch
              (trackRange step (if cb.location = 0 then 0 else cb.location + 1)
                (s.currentSegment.first - 1) (s.heap.getD cb.bunch dflt)),
            cache := s.cache.set nstate ⟨s.currentSegment.first - 1, cb.bunch⟩ }) ∧
    (∀ b0 : B,
      ((TrackBeam step dflt
            (SetActiveBeamlineSegment ⟨5, 10⟩
              (InitialiseTracking b0 1 ⟨[], [], ⟨0, 0⟩, true⟩).1) 0).map
          (fun o1 =>
            (gapFillPhase step dflt (SetActiveBeamlineSegment ⟨11, 20⟩ o1.state) 0).map
              (fun s2 => (s2.cache.getD 0 (mkCachedBunch 0)).location))) =
        some (some 10)) := by
  refine ⟨?_, ?_, ?_, ?_⟩
  · intro h0
    simp only [gapFillPhase, hcb]
    rw [if_neg (by simp [h0])]
  · intro hadj
    simp only [gapFillPhase, hcb]
    rw [if_neg (by simp [hadj])]
  · intro h0 hadj
    simp only [gapFillPhase, hcb]
    rw [if_pos ⟨by simp [hincr], h0, hadj⟩]
  · intro b0
    rfl

/-- Witness for C3 at a concrete input: one state, fresh cache (location
0, bunch id 0, single heap cell b0 = 0), active segment (5, 10): the
gap-fill tracks through [0, 4] (value 15 for the integer beamline) and
sets the location to 4. -/
theorem claim_C3_witness :
    gapFillPhase stepEx (0 : ℤ)
        (SetActiveBeamlineSegment ⟨5, 10⟩ (InitialiseTracking (0 : ℤ) 1 ⟨[], [], ⟨0, 0⟩, true⟩).1)
        0 =
      some ⟨[⟨4, 0⟩], [15], ⟨5, 10⟩, true⟩ ∧
    ((TrackBeam stepEx (0 : ℤ)
          (SetActiveBeamlineSegment ⟨5, 10⟩
            (InitialiseTracking (0 : ℤ) 1 ⟨[], [], ⟨0, 0⟩, true⟩).1) 0).map
        (fun o1 =>
          (gapFillPhase stepEx (0 : ℤ) (SetActiveBeamlineSegment ⟨11, 20⟩ o1.state) 0).map
            (fun s2 => (s2.cache.getD 0 (mkCachedBunch 0)).location))) =
      some (some 10) := by
  have h := claim_C3 stepEx (0 : ℤ)
    (SetActiveBeamlineSegment ⟨5, 10⟩ (InitialiseTracking (0 : ℤ) 1 ⟨[], [], ⟨0, 0⟩, true⟩).1)
    0 ⟨0, 0⟩ rfl rfl
  refine ⟨?_, h.2.2.2 0⟩
  have h3 := h.2.2.1 (by decide) (by decide)
  rw [h3]
  rfl

/-- C4 (amended): after the gap-fill phase the active segment is tracked
on a copy of the cached bunch — from the active-segment start when
incremental tracking is enabled, else from index 0, through the segment
end; the tracked copy is then deleted rather than returned (TrackBeam is
void, so nothing is returned to the caller), and the cache's stored bunch
and location are left exactly as the gap-fill phase set them, not advanced
through the active segment. -/
theorem claim_C4_amended {B : Type} (step : ℕ → B → B) (dflt : B) (s : AccState B)
    (nstate : ℕ) (s1 : AccState B) (hgap : gapFillPhase step dflt s nstate = some s1)
    (cb1 : CachedBunch) (hcb1 : s1.cache.get? nstate = some cb1) :
    TrackBeam step dflt s nstate = some
      { state := s1,
        returned := none,
        computed := trackRange step
          (if s1.allowIncrTracking then s1.currentSegment.first else 0)
          s1.currentSegment.second (s1.heap.getD cb1.bunch dflt) } := by
  simp only [TrackBeam, hgap, hcb1]

/-- Witness for the amended C4 at a concrete input (the integer beamline,
one state, segment (5, 10)): the call computes the copy tracked through
[5, 10] from the gap-filled bunch (15 + 6 + ... + 11 = 66), returns
nothing, and leaves the cache at location 4. -/
theorem claim_C4_amended_witness :
    TrackBeam stepEx (0 : ℤ)
        (SetActiveBeamlineSegment ⟨5, 10⟩ (InitialiseTracking (0 : ℤ) 1 ⟨[], [], ⟨0, 0⟩, true⟩).1)
        0 =
      some
        { state := ⟨[⟨4, 0⟩], [15], ⟨5, 10⟩, true⟩,
          returned := none,
          computed := 66 } := by
  exact claim_C4_amended stepEx (0 : ℤ)
    (SetActiveBeamlineSegment ⟨5, 10⟩ (InitialiseTracking (0 : ℤ) 1 ⟨[], [], ⟨0, 0⟩, true⟩).1)
    0 ⟨[⟨4, 0⟩], [15], ⟨5, 10⟩, true⟩ rfl ⟨4, 0⟩ rfl

/-- Counterexample to C4 as stated: at a concrete input the tracked copy
is not returned to the caller — the call's returned value is none (the
C++ function is void and deletes rb at line 140) even though the tracked
copy (value 66) was computed. -/
theorem claim_C4_counterexample :
    (TrackBeam stepEx (0 : ℤ)
        (SetActiveBeamlineSegment ⟨5, 10⟩ (InitialiseTracking (0 : ℤ) 1 ⟨[], [], ⟨0, 0⟩, true⟩).1)
        0).map TrackOutcome.returned = some none ∧
    (TrackBeam stepEx (0 : ℤ)
        (SetActiveBeamlineSegment ⟨5, 10⟩ (InitialiseTracking (0 : ℤ) 1 ⟨[], [], ⟨0, 0⟩, true⟩).1)
        0).map TrackOutcome.computed = some 66 := by
  constructor <;> rfl

lemma trackRange_comp {B : Type} (step : ℕ → B → B) (a b c : ℕ) (x : B)
    (h1 : a ≤ b + 1) (h2 : b ≤ c) :
    trackRange step (b + 1) c (trackRange step a b x) = trackRange step a c x := by
  unfold trackRange
  rw [← List.foldl_append]
  congr 1
  rw [show c + 1 - a = (c + 1 - (b + 1)) + (b + 1 - a) by omega, ← List.range'_append]
  have h3 : a + 1 * (b + 1 - a) = b + 1 := by omega
  rw [h3]

lemma trackBeam_incr_closed {B : Type} (step : ℕ → B → B) (dflt : B) (loc : ℕ) (hv : B)
    (seg : DFS_Segment) :
    TrackBeam step dflt ⟨[⟨loc, 0⟩], [hv], seg, true⟩ 0 =
      if seg.first ≠ 0 ∧ loc + 1 ≠ seg.first then
        some
          ⟨⟨[⟨seg.first - 1, 0⟩],
              [trackRange step (if loc = 0 then 0 else loc + 1) (seg.first - 1) hv], seg, true⟩,
            none,
            trackRange step seg.first seg.second
              (trackRange step (if loc = 0 then 0 else loc + 1) (seg.first - 1) hv)⟩
      else some ⟨⟨[⟨loc, 0⟩], [hv], seg, true⟩, none, trackRange step seg.first seg.second hv⟩ := by
  by_cases h : seg.first ≠ 0 ∧ loc + 1 ≠ seg.first
  · rw [if_pos h]
    simp only [TrackBeam, gapFillPhase, List.get?]
    rw [if_pos ⟨by simp, h⟩]
    simp [List.getD]
  · rw [if_neg h]
    simp only [TrackBeam, gapFillPhase, List.get?]
    rw [if_neg (by simp only [not_and] at h ⊢; intro _; exact h)]
    simp [List.getD]

lemma trackBeam_nonincr_closed {B : Type} (step : ℕ → B → B) (dflt : B) (loc : ℕ)
    (hv : B) (seg : DFS_Segment) :
    TrackBeam step dflt ⟨[⟨loc, 0⟩], [hv], seg, false⟩ 0 =
      some ⟨⟨[⟨loc, 0⟩], [hv], seg, false⟩, none, trackRange step 0 seg.second hv⟩ := by
  simp only [TrackBeam, gapFillPhase, List.get?]
  rw [if_neg (by simp)]
  simp [List.getD]

lemma runCalls_nonincr {B : Type} (step : ℕ → B → B) (dflt b0 : B) :
    ∀ (segs : List DFS_Segment) (loc : ℕ) (seg0 : DFS_Segment),
      (runCalls step dflt ⟨[⟨loc, 0⟩], [b0], seg0, false⟩ segs).2 =
        segs.map (fun seg => some (trackRange step 0 seg.second b0)) := by
  intro segs
  induction segs with
  | nil => intro loc seg0; rfl
  | cons seg rest ih =>
    intro loc seg0
    simp only [runCalls, applyCall, SetActiveBeamlineSegment, trackBeam_nonincr_closed,
      List.map_cons]
    rw [ih loc seg]

lemma runCalls_incr {B : Type} (step : ℕ → B → B) (dflt b0 : B) :
    ∀ (segs : List DFS_Segment) (loc : ℕ) (hv : B) (seg0 : DFS_Segment),
      ((loc = 0 ∧ hv = b0) ∨ (1 ≤ loc ∧ hv = trackRange step 0 loc b0)) →
      CacheMonotone loc segs →
      (runCalls step dflt ⟨[⟨loc, 0⟩], [hv], seg0, true⟩ segs).2 =
        segs.map (fun seg => some (trackRange step 0 seg.second b0)) := by
  intro segs
  induction segs with
  | nil => intro loc hv seg0 _ _; rfl
  | cons seg rest ih =>
    intro loc hv seg0 hinv hmono
    obtain ⟨⟨hfl, hcases⟩, hrest⟩ := hmono
    simp only [runCalls, applyCall, SetActiveBeamlineSegment]
    rw [trackBeam_incr_closed]
    by_cases hfill : seg.first ≠ 0 ∧ loc + 1 ≠ seg.first
    · rw [if_pos hfill]
      simp only [List.map_cons]
      have hnext : nextLoc loc seg = seg.first - 1 := by
        unfold nextLoc
        rw [if_pos hfill]
      rcases hinv with ⟨hl0, hval⟩ | ⟨hl1, hval⟩
      · -- never-advanced cache: fill [0, first - 1]
        subst hl0
        rw [hval]
        have hf2 : 2 ≤ seg.first := by
          rcases hcases with ⟨_, hf⟩ | ⟨hbad, _⟩
          · rcases hf with hf | hf
            · exact absurd hf hfill.1
            · exact hf
          · omega
        have hgap : trackRange step (if (0 : ℕ) = 0 then 0 else 0 + 1) (seg.first - 1) b0 =
            trackRange step 0 (seg.first - 1) b0 := by rw [if_pos rfl]
        rw [hgap]
        have hcomp : trackRange step seg.first seg.second
            (trackRange step 0 (seg.first - 1) b0) = trackRange step 0 seg.second b0 := by
          have hfs : seg.first - 1 + 1 = seg.first := by omega
          rw [← hfs]
          exact trackRange_comp step 0 (seg.first - 1) seg.second b0 (by omega) (by omega)
        rw [hcomp]
        rw [ih (seg.first - 1) (trackRange step 0 (seg.first - 1) b0) seg
          (Or.inr ⟨by omega, rfl⟩) (hnext ▸ hrest)]
      · -- advanced cache: fill [loc + 1, first - 1]
        subst hval
        have hle : loc + 1 ≤ seg.first := by
          rcases hcases with ⟨hbad, _⟩ | ⟨_, hle⟩
          · omega
          · exact hle
        have hlt : loc + 1 < seg.first := by
          rcases Nat.lt_or_ge (loc + 1) seg.first with h | h
          · exact h
          · exact absurd (by omega) hfill.2
        have hgap : trackRange step (if loc = 0 then 0 else loc + 1) (seg.first - 1)
            (trackRange step 0 loc b0) = trackRange step 0 (seg.first - 1) b0 := by
          rw [if_neg (by omega)]
          exact trackRange_comp step 0 loc (seg.first - 1) b0 (by omega) (by omega)
        rw [hgap]
        have hcomp : trackRange step seg.first seg.second
            (trackRange step 0 (seg.first - 1) b0) = trackRange step 0 seg.second b0 := by
          have hfs : seg.first - 1 + 1 = seg.first := by omega
          rw [← hfs]
          exact trackRange_comp step 0 (seg.first - 1) seg.second b0 (by omega) (by omega)
        rw [hcomp]
        rw [ih (seg.first - 1) (trackRange step 0 (seg.first - 1) b0) seg
          (Or.inr ⟨by omega, rfl⟩) (hnext ▸ hrest)]
    · rw [if_neg hfill]
      simp only [List.map_cons]
      have hnext : nextLoc loc seg = loc := by
        unfold nextLoc
        rw [if_neg hfill]
      rcases hinv with ⟨hl0, hval⟩ | ⟨hl1, hval⟩
      · -- never advanced, and no fill: the segment starts at 0
        subst hl0
        rw [hval]
        have hf0 : seg.first = 0 := by
          by_cases hf : seg.first = 0
          · exact hf
          · rcases hcases with ⟨_, hf2 | hf2⟩ | ⟨hbad, _⟩
            · exact absurd hf2 hf
            · exact absurd ⟨hf, by omega⟩ hfill
            · omega
        have : trackRange step seg.first seg.second b0 = trackRange step 0 seg.second b0 := by
          rw [hf0]
        rw [this]
        rw [ih 0 b0 seg (Or.inl ⟨rfl, rfl⟩) (hnext ▸ hrest)]
      · -- advanced and already adjacent: loc + 1 = first
        subst hval
        have hadj : loc + 1 = seg.first := by
          by_cases hf : seg.first = 0
          · rcases hcases with ⟨hbad, _⟩ | ⟨_, hle⟩
            · omega
            · omega
          · by_cases ha : loc + 1 = seg.first
            · exact ha
            · exact absurd ⟨hf, ha⟩ hfill
        have hcomp : trackRange step seg.first seg.second (trackRange step 0 loc b0) =
            trackRange step 0 seg.second b0 := by
          rw [← hadj]
          exact trackRange_comp step 0 loc seg.second b0 (by omega) (by omega)
        rw [hcomp]
        rw [ih loc (trackRange step 0 loc b0) seg (Or.inr ⟨hl1, rfl⟩) (hnext ▸ hrest)]

/-- Counterexample to C5 as stated: for the segment sequence [(1, 1)] on
the integer beamline from a fresh cache, incremental tracking computes 2
(element 0 is silently skipped, because the never-advanced location 0 is
mistaken for "already advanced through element 0"), while the
non-incremental baseline computes 3 — the two paths are not numerically
identical for every sequence. -/
theorem claim_C5_counterexample :
    (runCalls stepEx (0 : ℤ) (InitialiseTracking (0 : ℤ) 1 ⟨[], [], ⟨0, 0⟩, true⟩).1
        [⟨1, 1⟩]).2 = [some 2] ∧
    (runCalls stepEx (0 : ℤ) (InitialiseTracking (0 : ℤ) 1 ⟨[], [], ⟨0, 0⟩, false⟩).1
        [⟨1, 1⟩]).2 = [some 3] ∧
    (runCalls stepEx (0 : ℤ) (InitialiseTracking (0 : ℤ) 1 ⟨[], [], ⟨0, 0⟩, true⟩).1
        [⟨1, 1⟩]).2 ≠
      (runCalls stepEx (0 : ℤ) (InitialiseTracking (0 : ℤ) 1 ⟨[], [], ⟨0, 0⟩, false⟩).1
        [⟨1, 1⟩]).2 := by
  refine ⟨rfl, rfl, ?_⟩
  decide

/-- C5 (amended): with incremental tracking disabled every TrackBeam call
tracks the state's bunch from beamline index 0 through the active
segment's end (for any sequence whatsoever), and for every cache-monotone
sequence of active segments — each segment with first ≤ second, starting
at 0 or at 2 or later while the cache is un-advanced, and starting after
the cached location once it has advanced — the incremental path computes
exactly the same tracked bunches as the non-incremental baseline: the
gap-filling changes only the work performed, never the result. (The
restriction is forced: a segment starting at 1 on a fresh cache, or at or
before the cached location, makes the two differ.) -/
theorem claim_C5_amended {B : Type} (step : ℕ → B → B) (dflt b0 : B)
    (segs : List DFS_Segment) :
    (runCalls step dflt (InitialiseTracking b0 1 ⟨[], [], ⟨0, 0⟩, false⟩).1 segs).2 =
      segs.map (fun seg => some (trackRange step 0 seg.second b0)) ∧
    (CacheMonotone 0 segs →
      (runCalls step dflt (InitialiseTracking b0 1 ⟨[], [], ⟨0, 0⟩, true⟩).1 segs).2 =
        segs.map (fun seg => some (trackRange step 0 seg.second b0)) ∧
      (runCalls step dflt (InitialiseTracking b0 1 ⟨[], [], ⟨0, 0⟩, true⟩).1 segs).2 =
        (runCalls step dflt (InitialiseTracking b0 1 ⟨[], [], ⟨0, 0⟩, false⟩).1 segs).2) := by
  have hbase : (InitialiseTracking b0 1 (⟨[], [], ⟨0, 0⟩, false⟩ : AccState B)).1 =
      ⟨[⟨0, 0⟩], [b0], ⟨0, 0⟩, false⟩ := rfl
  have hincr : (InitialiseTracking b0 1 (⟨[], [], ⟨0, 0⟩, true⟩ : AccState B)).1 =
      ⟨[⟨0, 0⟩], [b0], ⟨0, 0⟩, true⟩ := rfl
  have h1 : (runCalls step dflt (InitialiseTracking b0 1 ⟨[], [], ⟨0, 0⟩, false⟩).1 segs).2 =
      segs.map (fun seg => some (trackRange step 0 seg.second b0)) := by
    rw [hbase]
    exact runCalls_nonincr step dflt b0 segs 0 ⟨0, 0⟩
  refine ⟨h1, ?_⟩
  intro hmono
  have h2 : (runCalls step dflt (InitialiseTracking b0 1 ⟨[], [], ⟨0, 0⟩, true⟩).1 segs).2 =
      segs.map (fun seg => some (trackRange step 0 seg.second b0)) := by
    rw [hincr]
    exact runCalls_incr step dflt b0 segs 0 b0 ⟨0, 0⟩ (Or.inl ⟨rfl, rfl⟩) hmono
  exact ⟨h2, by rw [h1, h2]⟩

/-- Witness for the amended C5: the baseline closed form on the sequence
(5, 10), (11, 20) on the integer beamline, which is cache-monotone, and on
which both paths produce [66, 231]. -/
theorem claim_C5_amended_witness :
    (runCalls stepEx (0 : ℤ) (InitialiseTracking (0 : ℤ) 1 ⟨[], [], ⟨0, 0⟩, false⟩).1
        [⟨5, 10⟩, ⟨11, 20⟩]).2 =
      [(⟨5, 10⟩ : DFS_Segment), ⟨11, 20⟩].map
        (fun seg => some (trackRange stepEx 0 seg.second (0 : ℤ))) ∧
    CacheMonotone 0 [⟨5, 10⟩, ⟨11, 20⟩] ∧
    (runCalls stepEx (0 : ℤ) (InitialiseTracking (0 : ℤ) 1 ⟨[], [], ⟨0, 0⟩, true⟩).1
        [⟨5, 10⟩, ⟨11, 20⟩]).2 =
      (runCalls stepEx (0 : ℤ) (InitialiseTracking (0 : ℤ) 1 ⟨[], [], ⟨0, 0⟩, false⟩).1
        [⟨5, 10⟩, ⟨11, 20⟩]).2 :=
  ⟨(claim_C5_amended stepEx (0 : ℤ) (0 : ℤ) [⟨5, 10⟩, ⟨11, 20⟩]).1, by decide,
    ((claim_C5_amended stepEx (0 : ℤ) (0 : ℤ) [⟨5, 10⟩, ⟨11, 20⟩]).2 (by decide)).2⟩

/-- Counterexample to C7 as stated: the claim says the caller can read off
the final residual, but the only scalar FindClosedOrbit surfaces besides
the iteration count is w, and at a concrete input (transverse-only solve
on the halving ring, guess (1,0,0,0,0,0), delta = 1, tol = 0, max_iter =
2, so exactly one iteration runs) the surfaced w is 1 while the dot
product of that last iteration's residual with itself is 1/4 — no surfaced
quantity carries the final residual. -/
theorem claim_C7_counterexample :
    (FindClosedOrbit (List.map halfPS) svdSolveDiag true 1 0 2 (psSet psZero 0 1)).2.2.1 ≠
      dotVec (cptOf true)
        (specResidual (cptOf true)
          (List.map halfPS
            (resetLoop (psSet psZero 0 1) 1 0 (mkProbeBunch (cptOf true) (psSet psZero 0 1))))
          (psSet psZero 0 1))
        (specResidual (cptOf true)
          (List.map halfPS
            (resetLoop (psSet psZero 0 1) 1 0 (mkProbeBunch (cptOf true) (psSet psZero 0 1))))
          (psSet psZero 0 1)) ∧
    (FindClosedOrbit (List.map halfPS) svdSolveDiag true 1 0 2 (psSet psZero 0 1)).2.2.1 = 1 ∧
    dotVec (cptOf true)
        (specResidual (cptOf true)
          (List.map halfPS
            (resetLoop (psSet psZero 0 1) 1 0 (mkProbeBunch (cptOf true) (psSet psZero 0 1))))
          (psSet psZero 0 1))
        (specResidual (cptOf true)
          (List.map halfPS
            (resetLoop (psSet psZero 0 1) 1 0 (mkProbeBunch (cptOf true) (psSet psZero 0 1))))
          (psSet psZero 0 1)) = 1 / 4 := by
  have hrun : (FindClosedOrbit (List.map halfPS) svdSolveDiag true 1 0 2 (psSet psZero 0 1)).2.2.1 =
      (coStep (List.map halfPS) svdSolveDiag (cptOf true) 1 (psSet psZero 0 1)
        (mkProbeBunch (cptOf true) (psSet psZero 0 1))).2.2 := by
    simp only [FindClosedOrbit, coLoop]
    rw [if_pos ⟨by norm_num, by norm_num⟩]
    rw [if_neg (fun h => absurd h.2 (by omega))]
  have hw : (coStep (List.map halfPS) svdSolveDiag (cptOf true) 1 (psSet psZero 0 1)
      (mkProbeBunch (cptOf true) (psSet psZero 0 1))).2.2 = 1 := by
    simp only [coStep]
    rw [jacLoop_fst_closed 1 (cptOf true)
        ((List.map halfPS (resetLoop (psSet psZero 0 1) 1 0
          (mkProbeBunch (cptOf true) (psSet psZero 0 1)))).headD psZero)
        (psSet psZero 0 1)
        (List.map halfPS (resetLoop (psSet psZero 0 1) 1 0
          (mkProbeBunch (cptOf true) (psSet psZero 0 1))))
        (headD_eq_getD _ _),
      jacLoop_snd_closed 1 (cptOf true)
        ((List.map halfPS (resetLoop (psSet psZero 0 1) 1 0
          (mkProbeBunch (cptOf true) (psSet psZero 0 1)))).headD psZero)
        (psSet psZero 0 1)
        (List.map halfPS (resetLoop (psSet psZero 0 1) 1 0
          (mkProbeBunch (cptOf true) (psSet psZero 0 1))))
        (headD_eq_getD _ _)]
    norm_num [cptOf, dotVec, List.range_succ, svdSolveDiag, specJacobian, specResidual,
      resetLoop, resetParticle, mkProbeBunch, List.replicate, halfPS, psGet, psSet, psZero,
      List.getD]
  have hr : dotVec (cptOf true)
      (specResidual (cptOf true)
        (List.map halfPS
          (resetLoop (psSet psZero 0 1) 1 0 (mkProbeBunch (cptOf true) (psSet psZero 0 1))))
        (psSet psZero 0 1))
      (specResidual (cptOf true)
        (List.map halfPS
          (resetLoop (psSet psZero 0 1) 1 0 (mkProbeBunch (cptOf true) (psSet psZero 0 1))))
        (psSet psZero 0 1)) = 1 / 4 := by
    norm_num [cptOf, dotVec, List.range_succ, specResidual, resetLoop, resetParticle,
      mkProbeBunch, List.replicate, halfPS, psGet, psSet, psZero, List.getD]
  refine ⟨?_, ?_, hr⟩
  · rw [hrun, hw, hr]
    norm_num
  · rw [hrun, hw]

/-- C6: the code contradicts the cleanup contract. At the failing input
(radiation enabled, bendscale = 1, tracker initially with no attached
processes and no live allocations) the attached-process set is indeed
restored to its pre-call state, but the synchrotron-radiation process
(id 0) is removed without ever being deleted: it is still live after the
call, so the two transient processes are not both released. -/
theorem claim_C6_bug :
    (coProcesses true 1 ⟨[], [], 0⟩).attached = [] ∧
    (coProcesses true 1 ⟨[], [], 0⟩).live = [0] := by
  constructor <;> rfl

lemma trackUpTo_zero (line : List RMSElem) (particle : PS) :
    trackUpTo line particle 0 = particle := rfl

lemma trackUpTo_cons (e : RMSElem) (rest : List RMSElem) (particle : PS) (i : ℕ) :
    trackUpTo (e :: rest) particle (i + 1) = trackUpTo rest (e.2 particle) i := rfl

lemma rmsLoop_spec (m : Fin 6) :
    ∀ (line : List RMSElem) (prev : PS) (rms : Fin 6 → ℚ) (len : ℚ),
      (rmsLoop line prev rms len).1 m =
        rms m + ∑ i ∈ Finset.range line.length,
          (line.getD i (0, id)).1 *
            (trackUpTo line prev (i + 1) m + trackUpTo line prev i m) *
            (trackUpTo line prev (i + 1) m + trackUpTo line prev i m) / 4 ∧
      (rmsLoop line prev rms len).2 =
        len + ∑ i ∈ Finset.range line.length, (line.getD i (0, id)).1 := by
  intro line
  induction line with
  | nil => intro prev rms len; simp [rmsLoop]
  | cons e rest ih =>
    intro prev rms len
    simp only [rmsLoop]
    obtain ⟨ih1, ih2⟩ := ih (e.2 prev)
      (fun m0 => rms m0 + e.1 * (e.2 prev m0 + prev m0) * (e.2 prev m0 + prev m0) / 4)
      (len + e.1)
    constructor
    · rw [ih1]
      rw [List.length_cons, Finset.sum_range_succ']
      simp only [List.getD_cons_succ, List.getD_cons_zero, trackUpTo_cons, trackUpTo_zero]
      ring
    · rw [ih2]
      rw [List.length_cons, Finset.sum_range_succ']
      simp only [List.getD_cons_succ, List.getD_cons_zero]
      ring

/-- C9: FindRMSOrbit performs a single non-iterative pass: the rms
accumulator for each coordinate equals the length-weighted trapezoidal
mean-square of consecutive step values (each element of length dl
contributing dl times the square of the mean of the previous and current
first-particle values), the length accumulator equals the total path
length, and the written-back coordinate — the square root of accumulated
sum over total length — equals the square root of that closed form. -/
theorem claim_C9 (line : List RMSElem) (particle : PS) (m : Fin 6) :
    (FindRMSOrbit line particle).1 m =
      ∑ i ∈ Finset.range line.length,
        (line.getD i (0, id)).1 *
          ((trackUpTo line particle (i + 1) m + trackUpTo line particle i m) / 2) ^ 2 ∧
    (FindRMSOrbit line particle).2 =
      ∑ i ∈ Finset.range line.length, (line.getD i (0, id)).1 ∧
    Real.sqrt (((FindRMSOrbit line particle).1 m : ℝ) / ((FindRMSOrbit line particle).2 : ℝ)) =
      Real.sqrt
        (((∑ i ∈ Finset.range line.length,
            (line.getD i (0, id)).1 *
              ((trackUpTo line particle (i + 1) m + trackUpTo line particle i m) / 2) ^ 2 : ℚ) : ℝ) /
          ((∑ i ∈ Finset.range line.length, (line.getD i (0, id)).1 : ℚ) : ℝ)) := by
  obtain ⟨h1, h2⟩ := rmsLoop_spec m line particle (fun _ => 0) 0
  have hsum : (FindRMSOrbit line particle).1 m =
      ∑ i ∈ Finset.range line.length,
        (line.getD i (0, id)).1 *
          ((trackUpTo line particle (i + 1) m + trackUpTo line particle i m) / 2) ^ 2 := by
    rw [FindRMSOrbit, h1]
    rw [zero_add]
    refine Finset.sum_congr rfl ?_
    intro i _
    ring
  have hlen : (FindRMSOrbit line particle).2 =
      ∑ i ∈ Finset.range line.length, (line.getD i (0, id)).1 := by
    rw [FindRMSOrbit, h2, zero_add]
  exact ⟨hsum, hlen, by rw [hsum, hlen]⟩

/-- Witness for C1 at a concrete input. -/
theorem claim_C1_witness :
    (resetLoop psZero 1 0 (mkProbeBunch 6 psZero)).length = 7 ∧
    (resetLoop psZero 1 0 (mkProbeBunch 6 psZero)).getD 0 psZero = psZero ∧
    (resetLoop psZero 1 0 (mkProbeBunch 6 psZero)).getD 3 psZero =
      psSet psZero 2 (psGet psZero 2 + 1) ∧
    (jacLoop 1 6 ((id (resetLoop psZero 1 0 (mkProbeBunch 6 psZero))).headD psZero)
        psZero 6 0 (id (resetLoop psZero 1 0 (mkProbeBunch 6 psZero))).tail
        matZero vecZero).1 =
      specJacobian 6 1 (id (resetLoop psZero 1 0 (mkProbeBunch 6 psZero))) := by
  have h := claim_C1 false id psZero 1 (mkProbeBunch 6 psZero) (by rfl) (fun _ => rfl)
  exact ⟨h.1, h.2.1, h.2.2.1 3 (by decide) (by decide), h.2.2.2.1⟩
